import Mathlib

/-!
Verification of the SCFace database query layer (`xbob/db/scface/query.py`).

The query engine is shallowly embedded: the SQLAlchemy-backed `Database` class
becomes a family of pure functions over an explicit `Session` value
(`none` models a missing SQLite file, i.e. `self.session is None`), the
relational tables become lists of records in a `Catalogue` structure, and
exceptions become `Except` error values.  Entities and vocabulary constants
declared in `models.py` (which only `query.py` and the tests reference here)
are modelled from the specification's data-model section.
-/

/-- A dataset subject.  Mirrors `Client` rows: integer id, group membership
`sgroup`, gender, birth year, and the optional subworld membership (the
`Client.subworld` relationship, stored here as the subworld's name). -/
structure Client where
  id : Nat
  sgroup : String
  gender : String
  birthyear : Nat
  subworld : Option String
deriving DecidableEq

/-- A subworld row: a named split of the world group. -/
structure Subworld where
  id : Nat
  name : String
deriving DecidableEq

/-- An image file row: unique id, owning client id, camera label, distance
label and the on-disk path stem. -/
structure File where
  id : Nat
  client_id : Nat
  camera : String
  distance : Nat
  path : String
deriving DecidableEq

/-- A protocol row (named evaluation configuration). -/
structure Protocol where
  id : Nat
  name : String
deriving DecidableEq

/-- A `ProtocolPurpose` row: a (protocol, group, purpose) triple.  The
protocol is stored by name (standing for the foreign key into `Protocol`). -/
structure ProtocolPurpose where
  id : Nat
  protocol : String
  sgroup : String
  purpose : String
deriving DecidableEq

/-- Modelled from the spec: `ProtocolPurpose.group_choices` lives in
`models.py`, which is not part of the sources here; the spec fixes group
membership as `sgroup ∈ \x7bworld, dev, eval\x7d`. -/
def group_choices : List String := ["world", "dev", "eval"]

/-- Modelled from the spec: `Client.gender_choices` from `models.py`;
the spec fixes gender `∈ \x7bm, f\x7d`. -/
def gender_choices : List String := ["m", "f"]

/-- Modelled from the spec: `ProtocolPurpose.purpose_choices` from
`models.py`; the spec fixes `purpose ∈ \x7benrol, probe, train\x7d`. -/
def purpose_choices : List String := ["enrol", "probe", "train"]

/-- The populated store: one list per table plus the many-to-many
association table linking files to protocol purposes. -/
structure Catalogue where
  clients : List Client
  subworlds : List Subworld
  files : List File
  protocols : List Protocol
  protocol_purposes : List ProtocolPurpose
  file_pp : List (Nat × Nat)
deriving DecidableEq

/-- The `Database.session` attribute: `none` when the SQLite file was not
found at construction time, otherwise the (read-only) catalogue. -/
def Session : Type := Option Catalogue

/-- Errors surfaced to the caller.  `uninit` models the `RuntimeError`
raised by `assert_validity`, `invalidSelector` the `RuntimeError` raised by
`__check_validity__`, `nameError` a Python unbound-local/NameError, and the
last two the `.one()` lookup failures. -/
inductive DBError where
  | uninit
  | invalidSelector (msg : String)
  | nameError (var : String)
  | noResult
  | multipleResults
deriving DecidableEq

/-- A caller-supplied selector argument: absent (`None`), a scalar, or a
sequence (list/tuple). -/
inductive Sel (α : Type) where
  | none : Sel α
  | one : α → Sel α
  | many : List α → Sel α
deriving DecidableEq

/-- Python truthiness test `not l` on a selector argument: `None`, a falsy
scalar (empty string / zero) and an empty sequence are all falsy. -/
def selFalsy {α : Type} (isF : α → Bool) : Sel α → Bool
  | .none => true
  | .one a => isF a
  | .many l => l.isEmpty

/-- Renders a list of values for an error message. -/
def renderList (l : List String) : String := String.intercalate ", " l

/-- The message of the Invalid Selector error raised by
`__check_validity__`: it names the argument, the offending value and the
allowed set. -/
def invalidMsg (obj val vals : String) : String :=
  "Invalid " ++ obj ++ " \"" ++ val ++ "\". Valid values are " ++ vals ++
    ", or lists/tuples of those"

/-- `Database.__check_validity__`: falsy input yields the default, a truthy
scalar is coerced to a one-element sequence, and the first element outside
the valid set aborts with the Invalid Selector message. -/
def check_validity {α : Type} [DecidableEq α] (isF : α → Bool)
    (toStr : α → String) (l : Sel α) (obj : String) (valid default : List α) :
    Except String (List α) :=
  if selFalsy isF l then .ok default
  else
    let xs : List α :=
      match l with
      | .none => []
      | .one a => [a]
      | .many m => m
    match xs.find? (fun k => !(decide (k ∈ valid))) with
    | some k => .error (invalidMsg obj (toStr k) (renderList (valid.map toStr)))
    | none => .ok xs

/-- `__check_validity__` instantiated at string-valued arguments. -/
def checkStr (l : Sel String) (obj : String) (valid default : List String) :
    Except String (List String) :=
  check_validity (fun s => s == "") (fun s => s) l obj valid default

/-- `__check_validity__` instantiated at integer-valued arguments
(birth years). -/
def checkNat (l : Sel Nat) (obj : String) (valid default : List Nat) :
    Except String (List Nat) :=
  check_validity (fun n => n == 0) (fun n => toString n) l obj valid default

/-- Wraps a validator failure into the engine error type. -/
def checkE {α : Type} (e : Except String α) : Except DBError α :=
  e.mapError DBError.invalidSelector

/-- `model_ids` normalization in `objects`/`tobjects`/`zobjects`:
`None` becomes the empty tuple, a scalar becomes a one-element tuple. -/
def normIds : Sel Nat → List Nat
  | .none => []
  | .one a => [a]
  | .many l => l

/-- `Database.assert_validity` / session access: fails with the
Uninitialized Store error when no session was opened. -/
def getDB : Session → Except DBError Catalogue
  | Option.none => .error .uninit
  | Option.some db => .ok db

/-- `Database.is_valid`. -/
def Database.is_valid (s : Session) : Bool :=
  (Option.isSome (α := Catalogue) s)

/-- Insertion step of the sort modelling the SQL `order_by`. -/
def insertBy {α : Type} (le : α → α → Bool) (a : α) : List α → List α
  | [] => [a]
  | b :: l => if le a b then a :: b :: l else b :: insertBy le a l

/-- Sort modelling the SQL `order_by` clauses. -/
def sortBy {α : Type} (le : α → α → Bool) : List α → List α
  | [] => []
  | a :: l => insertBy le a (sortBy le l)

/-- `order_by(Client.id)`. -/
def clientLE (a b : Client) : Bool := decide (a.id ≤ b.id)

/-- `order_by(File.client_id, File.camera, File.distance, File.id)`. -/
def fileLE (a b : File) : Bool :=
  decide (a.client_id < b.client_id) ||
    (a.client_id == b.client_id &&
      (decide (a.camera < b.camera) ||
        (a.camera == b.camera &&
          (decide (a.distance < b.distance) ||
            (a.distance == b.distance && decide (a.id ≤ b.id))))))

/-- Sorted client query result. -/
def sortClients : List Client → List Client := sortBy clientLE

/-- Sorted file query result. -/
def sortFiles : List File → List File := sortBy fileLE

/-- Membership of a client's (optional) subworld in a subworld filter:
the inner join `join(Subworld, Client.subworld)` drops clients without a
subworld. -/
def subMem (o : Option String) (sw : List String) : Bool :=
  match o with
  | Option.none => false
  | Option.some n => decide (n ∈ sw)

namespace Catalogue

/-- `Database.protocol_names` applied to an open catalogue. -/
def protocol_names (db : Catalogue) : List String :=
  db.protocols.map Protocol.name

/-- `Database.subworld_names` applied to an open catalogue. -/
def subworld_names (db : Catalogue) : List String :=
  db.subworlds.map Subworld.name

end Catalogue

/-- The relational join
`query(File).join(Client).join(ProtocolPurpose, File.protocol_purposes).join(Protocol)`:
one row per file / owning client / associated protocol-purpose whose
protocol row exists. -/
def joinRows (db : Catalogue) : List (File × Client × ProtocolPurpose) :=
  db.files.flatMap fun f =>
    (db.clients.filter fun c => c.id == f.client_id).flatMap fun c =>
      (db.protocol_purposes.filter fun pp =>
          decide ((f.id, pp.id) ∈ db.file_pp) &&
            db.protocols.any (fun pr => pr.name == pp.protocol)).map fun pp =>
        (f, c, pp)

/-- The world branch of `clients`: clients with `sgroup = world`, optionally
restricted by subworld, gender and birth year, ordered by client id. -/
def clientsWorldBranch (db : Catalogue) (subworld gender : List String)
    (birthyear : List Nat) : List Client :=
  let q := db.clients.filter fun c => c.sgroup == "world"
  let q := if subworld = [] then q else q.filter fun c => subMem c.subworld subworld
  let q := if gender = [] then q else q.filter fun c => decide (c.gender ∈ gender)
  let q := if birthyear = [] then q
    else q.filter fun c => decide (c.birthyear ∈ birthyear)
  sortClients q

/-- The dev/eval branch of `clients`: clients whose `sgroup` is not `world`
and is among the requested groups, optionally restricted by gender and
birth year, ordered by client id. -/
def clientsNonWorldBranch (db : Catalogue) (groups gender : List String)
    (birthyear : List Nat) : List Client :=
  let q := db.clients.filter fun c =>
    !(c.sgroup == "world") && decide (c.sgroup ∈ groups)
  let q := if gender = [] then q else q.filter fun c => decide (c.gender ∈ gender)
  let q := if birthyear = [] then q
    else q.filter fun c => decide (c.birthyear ∈ birthyear)
  sortClients q

/-- The accumulation core of `Database.clients`, after argument
validation. -/
def clientsQuery (db : Catalogue) (groups subworld gender : List String)
    (birthyear : List Nat) : List Client :=
  (if "world" ∈ groups then clientsWorldBranch db subworld gender birthyear
   else []) ++
  (if "dev" ∈ groups ∨ "eval" ∈ groups then
     clientsNonWorldBranch db groups gender birthyear
   else [])

/-- `VALID_BIRTHYEARS = range(1900, 2050)`. -/
def validBirthyears : List Nat := List.range' 1900 150

namespace Database

/-- `Database.groups`: the registered group names (a vocabulary constant,
read without touching the store). -/
def groups (_s : Session) : List String := group_choices

/-- `Database.genders`. -/
def genders (_s : Session) : List String := gender_choices

/-- `Database.purposes`. -/
def purposes (_s : Session) : List String := purpose_choices

/-- `Database.protocols`. -/
def protocols (s : Session) : Except DBError (List Protocol) := do
  let db ← getDB s
  return db.protocols

/-- `Database.protocol_names`. -/
def protocol_names (s : Session) : Except DBError (List String) := do
  let db ← getDB s
  return db.protocol_names

/-- `Database.subworlds`. -/
def subworlds (s : Session) : Except DBError (List Subworld) := do
  let db ← getDB s
  return db.subworlds

/-- `Database.subworld_names`. -/
def subworld_names (s : Session) : Except DBError (List String) := do
  let db ← getDB s
  return db.subworld_names

/-- `Database.has_subworld`. -/
def has_subworld (s : Session) (name : String) : Except DBError Bool := do
  let db ← getDB s
  return db.subworlds.any fun k => k.name == name

/-- `Database.has_protocol`. -/
def has_protocol (s : Session) (name : String) : Except DBError Bool := do
  let db ← getDB s
  return db.protocols.any fun k => k.name == name

/-- `Database.protocol`: fetch exactly one protocol by name, else fail. -/
def protocol (s : Session) (name : String) : Except DBError Protocol := do
  let db ← getDB s
  match db.protocols.filter (fun k => k.name == name) with
  | [p] => return p
  | [] => Except.error .noResult
  | _ => Except.error .multipleResults

/-- `Database.protocol_purposes`. -/
def protocol_purposes (s : Session) : Except DBError (List ProtocolPurpose) := do
  let db ← getDB s
  return db.protocol_purposes

/-- `Database.has_client_id`. -/
def has_client_id (s : Session) (id : Nat) : Except DBError Bool := do
  let db ← getDB s
  return db.clients.any fun c => c.id == id

/-- `Database.client`: fetch exactly one client by id, else fail. -/
def client (s : Session) (id : Nat) : Except DBError Client := do
  let db ← getDB s
  match db.clients.filter (fun c => c.id == id) with
  | [c] => return c
  | [] => Except.error .noResult
  | _ => Except.error .multipleResults

/-- `Database.clients`: validate the five selector arguments, then run the
two accumulation branches. -/
def clients (s : Session) (protocol groups subworld gender : Sel String)
    (birthyear : Sel Nat) : Except DBError (List Client) := do
  let db ← getDB s
  let _protocol ← checkE
    (checkStr protocol "protocol" db.protocol_names db.protocol_names)
  let groups ← checkE (checkStr groups "group" group_choices group_choices)
  let subworld ← checkE (checkStr subworld "subworld" db.subworld_names [])
  let gender ← checkE (checkStr gender "gender" gender_choices [])
  let birthyear ← checkE (checkNat birthyear "birthyear" validBirthyears [])
  return clientsQuery db groups subworld gender birthyear

/-- `Database.tclients`: T-Norm clients are the ones from the onethird
world subset (the `groups` argument is not used). -/
def tclients (s : Session) (protocol _groups : Sel String) :
    Except DBError (List Client) :=
  clients s protocol (.one "world") (.one "onethird") .none .none

/-- `Database.zclients`: Z-Norm clients are the ones from the onethird
world subset (the `groups` argument is not used). -/
def zclients (s : Session) (protocol _groups : Sel String) :
    Except DBError (List Client) :=
  clients s protocol (.one "world") (.one "onethird") .none .none

/-- `Database.models`. -/
def models (s : Session) (protocol groups : Sel String) :
    Except DBError (List Client) :=
  clients s protocol groups .none .none .none

/-- `Database.tmodels`. -/
def tmodels (s : Session) (protocol groups : Sel String) :
    Except DBError (List Client) :=
  tclients s protocol groups

/-- `Database.get_client_id_from_model_id`: the identity. -/
def get_client_id_from_model_id (_s : Session) (model_id : Nat) : Nat :=
  model_id

end Database

/-- The world branch of `objects` (lines 301-309): files joined through
client/protocol-purpose/protocol, group `world`, optional subworld and
model-id restrictions, sorted. -/
def objectsWorldBranch (db : Catalogue) (protocol subworld : List String)
    (model_ids : List Nat) : List File :=
  let q := joinRows db
  let q := if subworld = [] then q
    else q.filter fun r => subMem r.2.1.subworld subworld
  let q := q.filter fun r =>
    decide (r.2.2.protocol ∈ protocol) && (r.2.2.sgroup == "world")
  let q := if model_ids = [] then q
    else q.filter fun r => decide (r.2.1.id ∈ model_ids)
  sortFiles (q.map fun r => r.1)

/-- The dev/eval enrol branch of `objects` (lines 312-318). -/
def objectsEnrolBranch (db : Catalogue) (protocol groups : List String)
    (model_ids : List Nat) : List File :=
  let q := (joinRows db).filter fun r =>
    decide (r.2.2.protocol ∈ protocol) && decide (r.2.2.sgroup ∈ groups) &&
      (r.2.2.purpose == "enrol")
  let q := if model_ids = [] then q
    else q.filter fun r => decide (r.2.1.id ∈ model_ids)
  sortFiles (q.map fun r => r.1)

/-- The dev/eval probe branch of `objects` for class `client`
(lines 321-327). -/
def objectsProbeClientBranch (db : Catalogue) (protocol groups : List String)
    (model_ids : List Nat) : List File :=
  let q := (joinRows db).filter fun r =>
    decide (r.2.2.protocol ∈ protocol) && decide (r.2.2.sgroup ∈ groups) &&
      (r.2.2.purpose == "probe")
  let q := if model_ids = [] then q
    else q.filter fun r => decide (r.2.1.id ∈ model_ids)
  sortFiles (q.map fun r => r.1)

/-- The dev/eval probe branch of `objects` for class `impostor`
(lines 329-335): the exclusion filter on the owning client id is applied
only when the model-id filter holds exactly one id. -/
def objectsImpostorBranch (db : Catalogue) (protocol groups : List String)
    (model_ids : List Nat) : List File :=
  let q := (joinRows db).filter fun r =>
    decide (r.2.2.protocol ∈ protocol) && decide (r.2.2.sgroup ∈ groups) &&
      (r.2.2.purpose == "probe")
  let q := if model_ids.length = 1 then
      q.filter fun r => !(decide (r.1.client_id ∈ model_ids))
    else q
  sortFiles (q.map fun r => r.1)

/-- The accumulation core of `Database.objects`, after argument validation:
the four branches accumulated and then deduplicated (`list(set(retval))`). -/
def objectsQuery (db : Catalogue)
    (protocol purposes groups classes subworld : List String)
    (model_ids : List Nat) : List File :=
  ((if "world" ∈ groups then
      objectsWorldBranch db protocol subworld model_ids
    else []) ++
   (if ("dev" ∈ groups ∨ "eval" ∈ groups) ∧ "enrol" ∈ purposes then
      objectsEnrolBranch db protocol groups model_ids
    else []) ++
   (if ("dev" ∈ groups ∨ "eval" ∈ groups) ∧ "probe" ∈ purposes ∧
        "client" ∈ classes then
      objectsProbeClientBranch db protocol groups model_ids
    else []) ++
   (if ("dev" ∈ groups ∨ "eval" ∈ groups) ∧ "probe" ∈ purposes ∧
        "impostor" ∈ classes then
      objectsImpostorBranch db protocol groups model_ids
    else [])).dedup

/-- The single query of `tobjects`/`zobjects`: subworld-joined world files
of the requested protocols restricted to the given camera set, with the
optional model-id filter, sorted. -/
def tzQuery (db : Catalogue) (protocol subworld validcam : List String)
    (model_ids : List Nat) : List File :=
  let q := (joinRows db).filter fun r => subMem r.2.1.subworld subworld
  let q := q.filter fun r =>
    decide (r.2.2.protocol ∈ protocol) && (r.2.2.sgroup == "world") &&
      decide (r.1.camera ∈ validcam)
  let q := if model_ids = [] then q
    else q.filter fun r => decide (r.2.1.id ∈ model_ids)
  sortFiles (q.map fun r => r.1)

/-- Modelled from the spec: `File.make_path` lives in `models.py`, which is
not part of the sources here; the spec defines path construction as the
pure concatenation prefix + stem + suffix with no escaping or validation. -/
def File.make_path (f : File) (pre suf : String) : String :=
  pre ++ f.path ++ suf

namespace Database

/-- `Database.objects`: validate the selector arguments, normalize
`model_ids`, then accumulate the four branches and deduplicate. -/
def objects (s : Session) (protocol purposes : Sel String)
    (model_ids : Sel Nat) (groups classes subworld : Sel String) :
    Except DBError (List File) := do
  let db ← getDB s
  let protocol ← checkE
    (checkStr protocol "protocol" db.protocol_names db.protocol_names)
  let purposes ← checkE
    (checkStr purposes "purpose" purpose_choices purpose_choices)
  let groups ← checkE (checkStr groups "group" group_choices group_choices)
  let classes ← checkE
    (checkStr classes "class" ["client", "impostor"] ["client", "impostor"])
  let subworld ← checkE (checkStr subworld "subworld" db.subworld_names [])
  let mids := normIds model_ids
  return objectsQuery db protocol purposes groups classes subworld mids

/-- `Database.tobjects`: the first store access is `protocol_names` (the
method itself performs no explicit validity assertion); cohort `onethird`,
camera restricted to `frontal`. -/
def tobjects (s : Session) (protocol : Sel String) (model_ids : Sel Nat)
    (groups : Sel String) : Except DBError (List File) := do
  let validProtocols ← Database.protocol_names s
  let protocol ← checkE (checkStr protocol "protocol" validProtocols validProtocols)
  let _groups ← checkE (checkStr groups "group" group_choices group_choices)
  let mids := normIds model_ids
  let db ← getDB s
  return tzQuery db protocol ["onethird"] ["frontal"] mids

/-- `Database.zobjects`: like `tobjects` but restricted to the non-frontal
cameras `cam1..cam5`. -/
def zobjects (s : Session) (protocol : Sel String) (model_ids : Sel Nat)
    (groups : Sel String) : Except DBError (List File) := do
  let validProtocols ← Database.protocol_names s
  let protocol ← checkE (checkStr protocol "protocol" validProtocols validProtocols)
  let _groups ← checkE (checkStr groups "group" group_choices group_choices)
  let mids := normIds model_ids
  let db ← getDB s
  return tzQuery db protocol ["onethird"] ["cam1", "cam2", "cam3", "cam4", "cam5"] mids

/-- `Database.paths`: fetch the files whose id is in `ids`, then emit, in
the caller-supplied order of `ids`, one constructed path per fetched file
with that id. -/
def paths (s : Session) (ids : List Nat) (pre suf : String) :
    Except DBError (List String) := do
  let db ← getDB s
  let fobj := db.files.filter fun k => decide (k.id ∈ ids)
  return ids.flatMap fun p =>
    (fobj.filter fun k => k.id == p).map fun k => k.make_path pre suf

/-- `Database.reverse`: after the validity assertion the source builds the
stem query, but its accumulator `retval` is never initialized before
`retval.extend(...)` / `return retval`, so every call fails with an
unbound-local name error. -/
def reverse (s : Session) (ps : List String) : Except DBError (List Nat) := do
  let db ← getDB s
  let _fobj := db.files.filter fun k => decide (k.path ∈ ps)
  Except.error (DBError.nameError "retval")

end Database

/-- A small concrete catalogue satisfying the data-model invariants, used
to evaluate the definitions on explicit inputs. -/
def exDB : Catalogue where
  clients :=
    [⟨1, "world", "m", 1980, some "onethird"⟩,
     ⟨2, "world", "f", 1985, some "twothirds"⟩,
     ⟨3, "dev", "m", 1990, none⟩,
     ⟨4, "eval", "f", 1975, none⟩,
     ⟨5, "dev", "f", 1982, none⟩]
  subworlds := [⟨1, "onethird"⟩, ⟨2, "twothirds"⟩]
  files :=
    [⟨1, 1, "frontal", 0, "w1"⟩,
     ⟨2, 2, "cam1", 1, "w2"⟩,
     ⟨3, 3, "frontal", 0, "d3e"⟩,
     ⟨4, 3, "cam2", 2, "d3p"⟩,
     ⟨5, 5, "cam3", 3, "d5p"⟩,
     ⟨6, 4, "cam1", 1, "e4p"⟩]
  protocols := [⟨1, "combined"⟩]
  protocol_purposes :=
    [⟨1, "combined", "world", "train"⟩,
     ⟨2, "combined", "dev", "enrol"⟩,
     ⟨3, "combined", "dev", "probe"⟩,
     ⟨4, "combined", "eval", "enrol"⟩,
     ⟨5, "combined", "eval", "probe"⟩]
  file_pp := [(1, 1), (2, 1), (3, 2), (4, 3), (5, 3), (6, 5)]

deriving instance DecidableEq for Except

theorem insertBy_perm {α : Type} (le : α → α → Bool) (a : α) (l : List α) :
    List.Perm (insertBy le a l) (a :: l) := by
  induction l with
  | nil => exact List.Perm.refl _
  | cons b t ih =>
    by_cases h : le a b = true
    · simp [insertBy, h]
    · simp only [insertBy, h, if_false]
      exact (List.Perm.cons b ih).trans (List.Perm.swap a b t)

theorem sortBy_perm {α : Type} (le : α → α → Bool) (l : List α) :
    List.Perm (sortBy le l) l := by
  induction l with
  | nil => exact List.Perm.refl _
  | cons a t ih =>
    exact (insertBy_perm le a (sortBy le t)).trans (List.Perm.cons a ih)

theorem mem_sortBy {α : Type} {le : α → α → Bool} {a : α} {l : List α} :
    a ∈ sortBy le l ↔ a ∈ l :=
  (sortBy_perm le l).mem_iff

theorem sortBy_nodup {α : Type} {le : α → α → Bool} {l : List α}
    (h : l.Nodup) : (sortBy le l).Nodup :=
  ((sortBy_perm le l).nodup_iff).mpr h

theorem mem_sortFiles {a : File} {l : List File} : a ∈ sortFiles l ↔ a ∈ l :=
  mem_sortBy

theorem mem_sortClients {a : Client} {l : List Client} :
    a ∈ sortClients l ↔ a ∈ l :=
  mem_sortBy

theorem mem_insertBy {α : Type} {le : α → α → Bool} {x a : α} {l : List α} :
    x ∈ insertBy le a l ↔ x = a ∨ x ∈ l := by
  rw [(insertBy_perm le a l).mem_iff, List.mem_cons]

theorem insertBy_pairwise {α : Type} {le : α → α → Bool}
    (htot : ∀ a b, le a b = true ∨ le b a = true)
    (htr : ∀ a b c, le a b = true → le b c = true → le a c = true)
    (a : α) {l : List α} (hl : l.Pairwise fun x y => le x y = true) :
    (insertBy le a l).Pairwise fun x y => le x y = true := by
  induction l with
  | nil => simp [insertBy]
  | cons b t ih =>
    rcases List.pairwise_cons.mp hl with ⟨hb, ht⟩
    by_cases h : le a b = true
    · simp only [insertBy, h, if_true]
      refine List.pairwise_cons.mpr ⟨?_, hl⟩
      intro x hx
      rcases List.mem_cons.mp hx with hx | hx
      · exact hx ▸ h
      · exact htr a b x h (hb x hx)
    · simp only [insertBy, h, if_false]
      refine List.pairwise_cons.mpr ⟨?_, ih ht⟩
      intro x hx
      rcases mem_insertBy.mp hx with hx | hx
      · rcases htot a b with h' | h'
        · exact absurd h' h
        · exact hx ▸ h'
      · exact hb x hx

theorem sortBy_pairwise {α : Type} {le : α → α → Bool}
    (htot : ∀ a b, le a b = true ∨ le b a = true)
    (htr : ∀ a b c, le a b = true → le b c = true → le a c = true)
    (l : List α) : (sortBy le l).Pairwise fun x y => le x y = true := by
  induction l with
  | nil => simp [sortBy]
  | cons a t ih => exact insertBy_pairwise htot htr a ih

theorem exbind_ok {ε α β : Type} {x : Except ε α} {f : α → Except ε β}
    {b : β} (h : x >>= f = .ok b) : ∃ a, x = .ok a ∧ f a = .ok b := by
  cases x with
  | error e => simp [Bind.bind, Except.bind] at h
  | ok a => exact ⟨a, rfl, by simpa [Bind.bind, Except.bind] using h⟩

theorem checkE_ok {α : Type} {e : Except String α} {a : α}
    (h : checkE e = .ok a) : e = .ok a := by
  cases e with
  | error m => simp [checkE, Except.mapError] at h
  | ok b => simpa [checkE, Except.mapError] using h

theorem joinRows_file_mem {db : Catalogue} {r : File × Client × ProtocolPurpose}
    (h : r ∈ joinRows db) : r.1 ∈ db.files := by
  simp only [joinRows, List.mem_flatMap, List.mem_map, List.mem_filter] at h
  obtain ⟨f, hf, c, hc, pp, hpp, hr⟩ := h
  rw [← hr]
  exact hf

/-- C5: with no session opened (backing store unreachable at construction),
every query-bearing operation fails with the Uninitialized Store error; in
this pure embedding no part of the store is read on the error path. -/
theorem spec_c5_uninitialized_fail_fast :
    (∀ p g sw gen by', Database.clients Option.none p g sw gen by' =
      .error .uninit) ∧
    (∀ p pu mi g cl sw, Database.objects Option.none p pu mi g cl sw =
      .error .uninit) ∧
    (∀ p mi g, Database.tobjects Option.none p mi g = .error .uninit) ∧
    (∀ p mi g, Database.zobjects Option.none p mi g = .error .uninit) ∧
    (∀ ids pre suf, Database.paths Option.none ids pre suf = .error .uninit) ∧
    (∀ ps, Database.reverse Option.none ps = .error .uninit) ∧
    (∀ i, Database.client Option.none i = .error .uninit) ∧
    (∀ n, Database.protocol Option.none n = .error .uninit) ∧
    (Database.subworlds Option.none = .error .uninit) ∧
    (Database.subworld_names Option.none = .error .uninit) ∧
    (∀ n, Database.has_subworld Option.none n = .error .uninit) ∧
    (∀ i, Database.has_client_id Option.none i = .error .uninit) ∧
    (Database.protocols Option.none = .error .uninit) ∧
    (Database.protocol_names Option.none = .error .uninit) ∧
    (∀ n, Database.has_protocol Option.none n = .error .uninit) ∧
    (Database.protocol_purposes Option.none = .error .uninit) ∧
    (∀ p g, Database.tclients Option.none p g = .error .uninit) ∧
    (∀ p g, Database.zclients Option.none p g = .error .uninit) ∧
    (∀ p g, Database.models Option.none p g = .error .uninit) ∧
    (∀ p g, Database.tmodels Option.none p g = .error .uninit) :=
  ⟨fun _ _ _ _ _ => rfl, fun _ _ _ _ _ _ => rfl, fun _ _ _ => rfl,
   fun _ _ _ => rfl, fun _ _ _ => rfl, fun _ => rfl, fun _ => rfl,
   fun _ => rfl, rfl, rfl, fun _ => rfl, fun _ => rfl, rfl, rfl,
   fun _ => rfl, rfl, fun _ _ => rfl, fun _ _ => rfl, fun _ _ => rfl,
   fun _ _ => rfl⟩

/-- C8: `tclients` and `zclients` agree on every argument, and both are the
`world`-group, `onethird`-subworld clients. -/
theorem spec_c8_tclients_zclients_equal :
    ∀ (s : Session) (p g : Sel String),
      Database.tclients s p g = Database.zclients s p g ∧
      Database.tclients s p g =
        Database.clients s p (.one "world") (.one "onethird") .none .none :=
  fun _ _ _ => ⟨rfl, rfl⟩

/-- C10: `tclients` and `zclients` ignore their `groups` argument entirely
(any two groups values, valid or not, give identical results, and the
argument is never validated: both calls reduce to a `clients` call in which
the caller's groups value does not occur). -/
theorem spec_c10_groups_ignored :
    ∀ (s : Session) (p g1 g2 : Sel String),
      Database.tclients s p g1 = Database.tclients s p g2 ∧
      Database.zclients s p g1 = Database.zclients s p g2 ∧
      Database.tclients s p g1 =
        Database.clients s p (.one "world") (.one "onethird") .none .none ∧
      Database.zclients s p g2 =
        Database.clients s p (.one "world") (.one "onethird") .none .none :=
  fun _ _ _ _ => ⟨rfl, rfl, rfl, rfl⟩

/-- C2, counterexample: on a concrete store holding file 1 with stem `w1`,
`reverse (paths [1] "p/" ".png")` does not return `[1]` (the `reverse`
accumulator is never initialized, so the call fails). -/
theorem spec_c2_roundtrip_counterexample :
    ((Database.paths (some exDB) [1] "p/" ".png").bind fun l =>
        Database.reverse (some exDB) l) ≠ Except.ok [1] := by
  decide

/-- C2, amended: the `paths`/`reverse` round-trip never returns the
original ids, because `reverse` always fails with the unbound-local error
on its uninitialized accumulator `retval`. -/
theorem spec_c2_amended_reverse_always_fails :
    ∀ (db : Catalogue) (ids : List Nat) (pre suf : String),
      ((Database.paths (some db) ids pre suf).bind fun l =>
          Database.reverse (some db) l) =
        Except.error (DBError.nameError "retval") :=
  fun _ _ _ _ => rfl

/-- C1: in the impostor probe branch, a model-id filter holding exactly one
id `m` excludes every file owned by client `m`; a filter holding zero or
more than one id leaves the branch unfiltered, returning all probe files
matching the protocol/group filters. -/
theorem spec_c1_impostor_exclusion :
    ∀ (db : Catalogue) (protocol groups : List String) (mids : List Nat),
      (∀ m, mids = [m] →
        ∀ f ∈ objectsImpostorBranch db protocol groups mids,
          f.client_id ≠ m) ∧
      (mids.length ≠ 1 →
        objectsImpostorBranch db protocol groups mids =
          objectsImpostorBranch db protocol groups []) := by
  intro db protocol groups mids
  refine ⟨?_, ?_⟩
  · rintro m rfl f hf
    simp only [objectsImpostorBranch] at hf
    rw [if_pos (show ([m] : List Nat).length = 1 from rfl)] at hf
    rw [mem_sortFiles] at hf
    simp only [List.mem_map, List.mem_filter, Bool.and_eq_true,
      Bool.not_eq_true', decide_eq_false_iff_not, List.mem_singleton] at hf
    obtain ⟨r, ⟨_, hnot⟩, hrf⟩ := hf
    rw [← hrf]
    exact hnot
  · intro hlen
    simp only [objectsImpostorBranch]
    rw [if_neg hlen, if_neg (by decide)]

/-- C1, witness: on the concrete store, the impostor branch for claimed
identity 3 contains no file of client 3, and a two-id filter returns the
whole probe set. -/
theorem spec_c1_witness :
    (∀ f ∈ objectsImpostorBranch exDB ["combined"] ["dev"] [3],
      f.client_id ≠ 3) ∧
    objectsImpostorBranch exDB ["combined"] ["dev"] [3, 5] =
      objectsImpostorBranch exDB ["combined"] ["dev"] [] :=
  ⟨(spec_c1_impostor_exclusion exDB ["combined"] ["dev"] [3]).1 3 rfl,
   (spec_c1_impostor_exclusion exDB ["combined"] ["dev"] [3, 5]).2 (by decide)⟩

theorem ok_bind {ε α β : Type} (a : α) (f : α → Except ε β) :
    (Except.ok a : Except ε α) >>= f = f a := rfl

theorem check_falsy_ok {α : Type} [DecidableEq α] (isF : α → Bool)
    (toStr : α → String) (l : Sel α) (obj : String) (valid default : List α)
    (h : selFalsy isF l = true) :
    check_validity isF toStr l obj valid default = .ok default := by
  unfold check_validity
  rw [if_pos h]

theorem check_one_ok {α : Type} [DecidableEq α] (isF : α → Bool)
    (toStr : α → String) (a : α) (obj : String) (valid default : List α)
    (hne : isF a = false) (hv : a ∈ valid) :
    check_validity isF toStr (.one a) obj valid default = .ok [a] := by
  unfold check_validity
  rw [if_neg (by simp [selFalsy, hne])]
  have hf : List.find? (fun k => !(decide (k ∈ valid))) [a] = Option.none := by
    rw [List.find?_eq_none]
    intro x hx
    rw [List.mem_singleton] at hx
    subst hx
    simp [hv]
  show (match List.find? (fun k => !(decide (k ∈ valid))) [a] with
    | some k =>
        Except.error (invalidMsg obj (toStr k) (renderList (valid.map toStr)))
    | Option.none => Except.ok [a]) = Except.ok [a]
  rw [hf]

theorem mem_ite_nil {α : Type} {c : Prop} [Decidable c] {l : List α} {a : α} :
    (a ∈ if c then l else []) ↔ c ∧ a ∈ l := by
  by_cases hc : c <;> simp [hc]

theorem mem_of_ite_self_filter {α : Type} {c : Prop} [Decidable c]
    {p : α → Bool} {l : List α} {a : α}
    (h : a ∈ if c then l else List.filter p l) : a ∈ l := by
  by_cases hc : c
  · rwa [if_pos hc] at h
  · rw [if_neg hc] at h
    exact (List.mem_filter.mp h).1

theorem mem_of_ite_filter_self {α : Type} {c : Prop} [Decidable c]
    {p : α → Bool} {l : List α} {a : α}
    (h : a ∈ if c then List.filter p l else l) : a ∈ l := by
  by_cases hc : c
  · rw [if_pos hc] at h
    exact (List.mem_filter.mp h).1
  · rwa [if_neg hc] at h

theorem nodup_ite_self_filter {α : Type} {c : Prop} [Decidable c]
    {p : α → Bool} {l : List α} (h : l.Nodup) :
    (if c then l else List.filter p l).Nodup := by
  by_cases hc : c
  · rwa [if_pos hc]
  · rw [if_neg hc]
    exact h.filter _

theorem nodup_ite_nil {α : Type} {c : Prop} [Decidable c] {l : List α}
    (h : l.Nodup) : (if c then l else []).Nodup := by
  by_cases hc : c
  · rwa [if_pos hc]
  · rw [if_neg hc]
    exact List.nodup_nil

theorem subMem_iff {o : Option String} {sw : List String} :
    subMem o sw = true ↔ ∃ n ∈ sw, o = some n := by
  cases o with
  | none => simp [subMem]
  | some a => simp [subMem]

theorem clientLE_total : ∀ a b : Client,
    clientLE a b = true ∨ clientLE b a = true := by
  intro a b
  simp only [clientLE, decide_eq_true_eq]
  exact Nat.le_total a.id b.id

theorem clientLE_trans : ∀ a b c : Client,
    clientLE a b = true → clientLE b c = true → clientLE a c = true := by
  intro a b c
  simp only [clientLE, decide_eq_true_eq]
  exact Nat.le_trans

/-- C4: the selector validator yields the supplied default on absent/empty
(falsy) input, coerces a (truthy) scalar to a one-element sequence, and on
any element outside the valid set fails with an Invalid Selector error
whose message names the argument, the offending value and the allowed set
(the validator is a pure function: it has no other effect). -/
theorem spec_c4_validator :
    ∀ {α : Type} [DecidableEq α] (isF : α → Bool) (toStr : α → String)
      (obj : String) (valid default : List α),
      (∀ l : Sel α, selFalsy isF l = true →
        check_validity isF toStr l obj valid default = .ok default) ∧
      (∀ a : α, isF a = false →
        check_validity isF toStr (.one a) obj valid default =
          check_validity isF toStr (.many [a]) obj valid default) ∧
      (∀ xs : List α, (∃ k ∈ xs, k ∉ valid) →
        ∃ k, k ∈ xs ∧ k ∉ valid ∧
          check_validity isF toStr (.many xs) obj valid default =
            .error (invalidMsg obj (toStr k) (renderList (valid.map toStr))) ∧
          ∃ s1 s2 s3,
            invalidMsg obj (toStr k) (renderList (valid.map toStr)) =
              "Invalid " ++ obj ++ s1 ++ toStr k ++ s2 ++
                renderList (valid.map toStr) ++ s3) := by
  intro α _inst isF toStr obj valid default
  refine ⟨fun l => check_falsy_ok isF toStr l obj valid default, ?_, ?_⟩
  · intro a ha
    unfold check_validity
    rw [if_neg (by simp [selFalsy, ha]), if_neg (by simp [selFalsy])]
  · intro xs hex
    have hne : xs ≠ [] := by
      rintro rfl
      obtain ⟨k, hk, _⟩ := hex
      cases hk
    cases hfind : xs.find? (fun k => !(decide (k ∈ valid))) with
    | none =>
      exfalso
      obtain ⟨k, hk, hkv⟩ := hex
      have := List.find?_eq_none.mp hfind k hk
      simp [hkv] at this
    | some k =>
      have hkmem : k ∈ xs := List.mem_of_find?_eq_some hfind
      have hkval : k ∉ valid := by
        have := List.find?_some hfind
        simpa using this
      refine ⟨k, hkmem, hkval, ?_, " \"", "\". Valid values are ",
        ", or lists/tuples of those", rfl⟩
      unfold check_validity
      rw [if_neg (by simp [selFalsy, hne])]
      show (match xs.find? (fun k => !(decide (k ∈ valid))) with
        | some k =>
            Except.error (invalidMsg obj (toStr k) (renderList (valid.map toStr)))
        | Option.none => Except.ok xs) =
          Except.error (invalidMsg obj (toStr k) (renderList (valid.map toStr)))
      rw [hfind]

/-- C4, witness: concrete validator behaviour for a `group`-style argument
with valid set `[dev]`: absent input yields the default, a scalar behaves
as its singleton, and the invalid value `bad` produces the Invalid
Selector error naming it. -/
theorem spec_c4_witness :
    checkStr .none "group" ["dev"] ["dev"] = .ok ["dev"] ∧
    checkStr (.one "x") "group" ["dev"] ["dev"] =
      checkStr (.many ["x"]) "group" ["dev"] ["dev"] ∧
    ∃ k, k ∈ ["bad"] ∧ k ∉ ["dev"] ∧
      checkStr (.many ["bad"]) "group" ["dev"] ["dev"] =
        .error (invalidMsg "group" k (renderList ["dev"])) := by
  have h := spec_c4_validator (fun s => s == "") (fun s : String => s)
    "group" ["dev"] ["dev"]
  refine ⟨h.1 .none rfl, h.2.1 "x" (by decide), ?_⟩
  obtain ⟨k, hk1, hk2, hk3, _⟩ := h.2.2 ["bad"] (by decide)
  exact ⟨k, hk1, hk2, by simpa [checkStr] using hk3⟩

theorem filter_id_eq_find {files : List File}
    (h : (files.map File.id).Nodup) (p : Nat) :
    files.filter (fun k => k.id == p) =
      (files.find? fun k => k.id == p).toList := by
  induction files with
  | nil => rfl
  | cons f fs ih =>
    rw [List.map_cons, List.nodup_cons] at h
    obtain ⟨hf, hfs⟩ := h
    by_cases hid : (f.id == p) = true
    · have h1 : List.filter (fun k => k.id == p) (f :: fs) =
          f :: List.filter (fun k => k.id == p) fs := by
        simp [List.filter_cons, hid]
      have h2 : List.find? (fun k => k.id == p) (f :: fs) = some f := by
        simp [List.find?_cons, hid]
      rw [h1, h2]
      have h3 : fs.filter (fun k => k.id == p) = [] := by
        rw [List.filter_eq_nil_iff]
        intro k hk
        simp only [beq_iff_eq]
        intro hkp
        apply hf
        rw [List.mem_map]
        refine ⟨k, hk, ?_⟩
        rw [hkp]
        exact (beq_iff_eq.mp hid).symm
      rw [h3]
      rfl
    · have h1 : List.filter (fun k => k.id == p) (f :: fs) =
          List.filter (fun k => k.id == p) fs := by
        simp [List.filter_cons, hid]
      have h2 : List.find? (fun k => k.id == p) (f :: fs) =
          List.find? (fun k => k.id == p) fs := by
        simp [List.find?_cons, hid]
      rw [h1, h2]
      exact ih hfs

theorem flatMap_toList_eq_filterMap {α β : Type} (g : α → Option β)
    (l : List α) : (l.flatMap fun a => (g a).toList) = l.filterMap g := by
  induction l with
  | nil => rfl
  | cons a t ih =>
    rw [List.flatMap_cons, List.filterMap_cons]
    cases g a <;> simp [ih]

/-- C9: on a store with unique file ids, `paths` emits, in the
caller-supplied order of `ids` (repeats included), one concatenated
`prefix ++ stem ++ suffix` string per id that matches a stored file,
skipping unmatched ids. -/
theorem spec_c9_paths_order :
    ∀ (db : Catalogue) (ids : List Nat) (pre suf : String),
      (db.files.map File.id).Nodup →
      Database.paths (some db) ids pre suf =
        .ok (ids.filterMap fun p =>
          (db.files.find? fun k => k.id == p).map fun k =>
            pre ++ k.path ++ suf) := by
  intro db ids pre suf h
  have hpaths : Database.paths (some db) ids pre suf =
      .ok (ids.flatMap fun p =>
        ((db.files.filter fun k => decide (k.id ∈ ids)).filter
            fun k => k.id == p).map fun k => k.make_path pre suf) := rfl
  rw [hpaths]
  congr 1
  have aux : ∀ l : List Nat, (∀ p ∈ l, p ∈ ids) →
      (l.flatMap fun p =>
        ((db.files.filter fun k => decide (k.id ∈ ids)).filter
            fun k => k.id == p).map fun k => k.make_path pre suf) =
      l.filterMap fun p =>
        (db.files.find? fun k => k.id == p).map fun k =>
          pre ++ k.path ++ suf := by
    intro l
    induction l with
    | nil => intro _; rfl
    | cons p t ih =>
      intro hl
      have hp : p ∈ ids := hl p (List.mem_cons_self p t)
      rw [List.flatMap_cons, List.filterMap_cons]
      have hfil : (db.files.filter fun k => decide (k.id ∈ ids)).filter
          (fun k => k.id == p) = db.files.filter fun k => k.id == p := by
        rw [List.filter_filter]
        apply List.filter_congr
        intro k _
        by_cases hkp : k.id = p
        · simp [hkp, hp]
        · simp [hkp]
      rw [hfil, filter_id_eq_find h p,
        ih fun q hq => hl q (List.mem_cons_of_mem p hq)]
      cases hfind : db.files.find? fun k => k.id == p with
      | none => simp
      | some k => simp [File.make_path]
  exact aux ids fun p hp => hp

/-- C9, witness: on the concrete store, ids `[2, 1, 2, 99]` (with a repeat
and an unmatched id) yield the decorated stems in caller order. -/
theorem spec_c9_witness :
    Database.paths (some exDB) [2, 1, 2, 99] "/r/" ".png" =
      .ok ["/r/w2.png", "/r/w1.png", "/r/w2.png"] :=
  (spec_c9_paths_order exDB [2, 1, 2, 99] "/r/" ".png" (by decide)).trans
    (by decide)

theorem objectsWorldBranch_subset {db : Catalogue} {p sw : List String}
    {mids : List Nat} {f : File}
    (h : f ∈ objectsWorldBranch db p sw mids) : f ∈ db.files := by
  unfold objectsWorldBranch at h
  rw [mem_sortFiles] at h
  obtain ⟨r, hr, rfl⟩ := List.mem_map.mp h
  have h1 := mem_of_ite_self_filter hr
  have h2 := (List.mem_filter.mp h1).1
  exact joinRows_file_mem (mem_of_ite_self_filter h2)

theorem objectsEnrolBranch_subset {db : Catalogue} {p g : List String}
    {mids : List Nat} {f : File}
    (h : f ∈ objectsEnrolBranch db p g mids) : f ∈ db.files := by
  unfold objectsEnrolBranch at h
  rw [mem_sortFiles] at h
  obtain ⟨r, hr, rfl⟩ := List.mem_map.mp h
  have h1 := mem_of_ite_self_filter hr
  exact joinRows_file_mem (List.mem_filter.mp h1).1

theorem objectsProbeClientBranch_subset {db : Catalogue} {p g : List String}
    {mids : List Nat} {f : File}
    (h : f ∈ objectsProbeClientBranch db p g mids) : f ∈ db.files := by
  unfold objectsProbeClientBranch at h
  rw [mem_sortFiles] at h
  obtain ⟨r, hr, rfl⟩ := List.mem_map.mp h
  have h1 := mem_of_ite_self_filter hr
  exact joinRows_file_mem (List.mem_filter.mp h1).1

theorem objectsImpostorBranch_subset {db : Catalogue} {p g : List String}
    {mids : List Nat} {f : File}
    (h : f ∈ objectsImpostorBranch db p g mids) : f ∈ db.files := by
  unfold objectsImpostorBranch at h
  rw [mem_sortFiles] at h
  obtain ⟨r, hr, rfl⟩ := List.mem_map.mp h
  have h1 := mem_of_ite_filter_self hr
  exact joinRows_file_mem (List.mem_filter.mp h1).1

theorem objectsQuery_subset {db : Catalogue}
    {p pu g cl sw : List String} {mids : List Nat} {f : File}
    (h : f ∈ objectsQuery db p pu g cl sw mids) : f ∈ db.files := by
  unfold objectsQuery at h
  rw [List.mem_dedup] at h
  simp only [List.mem_append] at h
  rcases h with ((h | h) | h) | h
  · exact objectsWorldBranch_subset (mem_ite_nil.mp h).2
  · exact objectsEnrolBranch_subset (mem_ite_nil.mp h).2
  · exact objectsProbeClientBranch_subset (mem_ite_nil.mp h).2
  · exact objectsImpostorBranch_subset (mem_ite_nil.mp h).2

theorem objectsQuery_ids_nodup (db : Catalogue)
    (hIds : (db.files.map File.id).Nodup)
    (p pu g cl sw : List String) (mids : List Nat) :
    ((objectsQuery db p pu g cl sw mids).map File.id).Nodup := by
  have hnd : (objectsQuery db p pu g cl sw mids).Nodup := List.nodup_dedup _
  exact hnd.map_on fun x hx y hy hxy =>
    List.inj_on_of_nodup_map hIds (objectsQuery_subset hx)
      (objectsQuery_subset hy) hxy

/-- Holds of a query outcome when every successful result has pairwise
distinct file identifiers. -/
def resultIdsNodup (e : Except DBError (List File)) : Prop :=
  ∀ res, e = .ok res → (res.map File.id).Nodup

/-- C3: under the unique-file-id invariant, `objects` never returns
duplicate file identifiers, however many of the four accumulation branches
contributed (the four branch results are concatenated and then
deduplicated). -/
theorem spec_c3_objects_nodup :
    ∀ (db : Catalogue) (p pu : Sel String) (mi : Sel Nat)
      (g cl sw : Sel String),
      (db.files.map File.id).Nodup →
      resultIdsNodup (Database.objects (some db) p pu mi g cl sw) := by
  intro db p pu mi g cl sw hIds res h
  unfold Database.objects at h
  obtain ⟨db', hdb, h⟩ := exbind_ok h
  rw [show getDB (some db) = Except.ok db from rfl] at hdb
  injection hdb with hdb
  subst hdb
  obtain ⟨pl, _, h⟩ := exbind_ok h
  obtain ⟨pul, _, h⟩ := exbind_ok h
  obtain ⟨gl, _, h⟩ := exbind_ok h
  obtain ⟨cll, _, h⟩ := exbind_ok h
  obtain ⟨swl, _, h⟩ := exbind_ok h
  have hres : objectsQuery db pl pul gl cll swl (normIds mi) = res := by
    simpa [pure, Except.pure] using h
  rw [← hres]
  exact objectsQuery_ids_nodup db hIds pl pul gl cll swl (normIds mi)

/-- C3, witness: the fully-default query on the concrete store yields
distinct file identifiers. -/
theorem spec_c3_witness :
    resultIdsNodup
      (Database.objects (some exDB) .none .none .none .none .none .none) :=
  spec_c3_objects_nodup exDB .none .none .none .none .none .none (by decide)

theorem mem_clientsWorldBranch {db : Catalogue} {sw gen : List String}
    {by' : List Nat} {c : Client} :
    c ∈ clientsWorldBranch db sw gen by' ↔
      c ∈ db.clients ∧ c.sgroup = "world" ∧
      (sw ≠ [] → subMem c.subworld sw = true) ∧
      (gen ≠ [] → c.gender ∈ gen) ∧
      (by' ≠ [] → c.birthyear ∈ by') := by
  unfold clientsWorldBranch
  rw [mem_sortClients]
  by_cases h1 : sw = [] <;> by_cases h2 : gen = [] <;>
    by_cases h3 : by' = [] <;>
    simp [h1, h2, h3, List.mem_filter, and_assoc] <;>
    intro _ <;> tauto

theorem mem_clientsNonWorldBranch {db : Catalogue} {g gen : List String}
    {by' : List Nat} {c : Client} :
    c ∈ clientsNonWorldBranch db g gen by' ↔
      c ∈ db.clients ∧ ¬(c.sgroup = "world") ∧ c.sgroup ∈ g ∧
      (gen ≠ [] → c.gender ∈ gen) ∧
      (by' ≠ [] → c.birthyear ∈ by') := by
  unfold clientsNonWorldBranch
  rw [mem_sortClients]
  by_cases h2 : gen = [] <;> by_cases h3 : by' = [] <;>
    simp [h2, h3, List.mem_filter, and_assoc] <;>
    intro _ <;> tauto

theorem mem_clientsQuery {db : Catalogue} {g sw gen : List String}
    {by' : List Nat} {c : Client} :
    c ∈ clientsQuery db g sw gen by' ↔
      ("world" ∈ g ∧ c ∈ clientsWorldBranch db sw gen by') ∨
      (("dev" ∈ g ∨ "eval" ∈ g) ∧ c ∈ clientsNonWorldBranch db g gen by') := by
  unfold clientsQuery
  rw [List.mem_append, mem_ite_nil, mem_ite_nil]

theorem clientsWorldBranch_nodup {db : Catalogue} {sw gen : List String}
    {by' : List Nat} (h : db.clients.Nodup) :
    (clientsWorldBranch db sw gen by').Nodup := by
  unfold clientsWorldBranch
  exact sortBy_nodup
    (nodup_ite_self_filter
      (nodup_ite_self_filter (nodup_ite_self_filter (h.filter _))))

theorem clientsNonWorldBranch_nodup {db : Catalogue} {g gen : List String}
    {by' : List Nat} (h : db.clients.Nodup) :
    (clientsNonWorldBranch db g gen by').Nodup := by
  unfold clientsNonWorldBranch
  exact sortBy_nodup
    (nodup_ite_self_filter (nodup_ite_self_filter (h.filter _)))

/-- C6: `clients` returns only clients matching every supplied criterion
(the subworld criterion applies to world-group clients, per the
documented contract); each branch is ordered by client id ascending; the
two branches are disjoint, so the result has no duplicate client ids; and
the three groups partition the full client set. -/
theorem spec_c6_clients_filters :
    ∀ (db : Catalogue) (g sw gen : List String) (by' : List Nat),
      (∀ c ∈ clientsQuery db g sw gen by',
        c ∈ db.clients ∧ c.sgroup ∈ g ∧
        (gen ≠ [] → c.gender ∈ gen) ∧
        (by' ≠ [] → c.birthyear ∈ by') ∧
        (sw ≠ [] → c.sgroup = "world" → ∃ n ∈ sw, c.subworld = some n)) ∧
      List.Pairwise (fun a b => a.id ≤ b.id)
        (clientsWorldBranch db sw gen by') ∧
      List.Pairwise (fun a b => a.id ≤ b.id)
        (clientsNonWorldBranch db g gen by') ∧
      (∀ c, c ∈ clientsWorldBranch db sw gen by' →
        c ∈ clientsNonWorldBranch db g gen by' → False) ∧
      ((db.clients.map Client.id).Nodup →
        ((clientsQuery db g sw gen by').map Client.id).Nodup) ∧
      ((∀ c ∈ db.clients, c.sgroup ∈ group_choices) →
        (∀ c, c ∈ db.clients ↔
          (c ∈ clientsQuery db ["world"] [] [] [] ∨
           c ∈ clientsQuery db ["dev"] [] [] [] ∨
           c ∈ clientsQuery db ["eval"] [] [] [])) ∧
        (∀ c, ¬(c ∈ clientsQuery db ["world"] [] [] [] ∧
                c ∈ clientsQuery db ["dev"] [] [] [])) ∧
        (∀ c, ¬(c ∈ clientsQuery db ["world"] [] [] [] ∧
                c ∈ clientsQuery db ["eval"] [] [] [])) ∧
        (∀ c, ¬(c ∈ clientsQuery db ["dev"] [] [] [] ∧
                c ∈ clientsQuery db ["eval"] [] [] []))) := by
  intro db g sw gen by'
  have hW : ∀ c, c ∈ clientsQuery db ["world"] [] [] [] ↔
      c ∈ db.clients ∧ c.sgroup = "world" := by
    intro c
    rw [mem_clientsQuery]
    simp +decide [mem_clientsWorldBranch, mem_clientsNonWorldBranch]
  have hD : ∀ c, c ∈ clientsQuery db ["dev"] [] [] [] ↔
      c ∈ db.clients ∧ ¬(c.sgroup = "world") ∧ c.sgroup = "dev" := by
    intro c
    rw [mem_clientsQuery]
    simp +decide [mem_clientsWorldBranch, mem_clientsNonWorldBranch]
  have hE : ∀ c, c ∈ clientsQuery db ["eval"] [] [] [] ↔
      c ∈ db.clients ∧ ¬(c.sgroup = "world") ∧ c.sgroup = "eval" := by
    intro c
    rw [mem_clientsQuery]
    simp +decide [mem_clientsWorldBranch, mem_clientsNonWorldBranch]
  refine ⟨?_, ?_, ?_, ?_, ?_, ?_⟩
  · intro c hc
    rcases mem_clientsQuery.mp hc with ⟨hg, hw⟩ | ⟨_, hnw⟩
    · obtain ⟨hmem, hsg, hsw, hgen, hby⟩ := mem_clientsWorldBranch.mp hw
      exact ⟨hmem, hsg ▸ hg, hgen, hby,
        fun hsw' _ => subMem_iff.mp (hsw hsw')⟩
    · obtain ⟨hmem, hsg, hing, hgen, hby⟩ := mem_clientsNonWorldBranch.mp hnw
      exact ⟨hmem, hing, hgen, hby, fun _ hw' => absurd hw' hsg⟩
  · exact (sortBy_pairwise clientLE_total clientLE_trans _).imp
      fun h => of_decide_eq_true h
  · exact (sortBy_pairwise clientLE_total clientLE_trans _).imp
      fun h => of_decide_eq_true h
  · intro c h1 h2
    exact (mem_clientsNonWorldBranch.mp h2).2.1 (mem_clientsWorldBranch.mp h1).2.1
  · intro hIds
    have hcl : db.clients.Nodup := List.Nodup.of_map Client.id hIds
    have hsub : ∀ x ∈ clientsQuery db g sw gen by', x ∈ db.clients := by
      intro x hx
      rcases mem_clientsQuery.mp hx with ⟨_, hw⟩ | ⟨_, hnw⟩
      · exact (mem_clientsWorldBranch.mp hw).1
      · exact (mem_clientsNonWorldBranch.mp hnw).1
    have hnd : (clientsQuery db g sw gen by').Nodup := by
      unfold clientsQuery
      rw [List.nodup_append]
      refine ⟨nodup_ite_nil (clientsWorldBranch_nodup hcl),
        nodup_ite_nil (clientsNonWorldBranch_nodup hcl), ?_⟩
      intro a ha hb
      have h1 := (mem_ite_nil.mp ha).2
      have h2 := (mem_ite_nil.mp hb).2
      exact (mem_clientsNonWorldBranch.mp h2).2.1
        (mem_clientsWorldBranch.mp h1).2.1
    exact hnd.map_on fun x hx y hy hxy =>
      List.inj_on_of_nodup_map hIds (hsub x hx) (hsub y hy) hxy
  · intro hg
    refine ⟨?_, ?_, ?_, ?_⟩
    · intro c
      constructor
      · intro hc
        have hsg := hg c hc
        simp only [group_choices, List.mem_cons, List.not_mem_nil,
          or_false] at hsg
        rcases hsg with h | h | h
        · exact Or.inl ((hW c).mpr ⟨hc, h⟩)
        · exact Or.inr (Or.inl ((hD c).mpr ⟨hc, by rw [h]; decide, h⟩))
        · exact Or.inr (Or.inr ((hE c).mpr ⟨hc, by rw [h]; decide, h⟩))
      · intro hc
        rcases hc with h | h | h
        · exact ((hW c).mp h).1
        · exact ((hD c).mp h).1
        · exact ((hE c).mp h).1
    · rintro c ⟨h1, h2⟩
      exact ((hD c).mp h2).2.1 ((hW c).mp h1).2
    · rintro c ⟨h1, h2⟩
      exact ((hE c).mp h2).2.1 ((hW c).mp h1).2
    · rintro c ⟨h1, h2⟩
      have hd := ((hD c).mp h1).2.2
      have he := ((hE c).mp h2).2.2
      rw [hd] at he
      exact absurd he (by decide)

/-- C6, witness: on the concrete store, a mixed world/dev query has
distinct client ids and the three groups partition the client table. -/
theorem spec_c6_witness :
    ((clientsQuery exDB ["world", "dev"] ["onethird"] [] []).map
      Client.id).Nodup ∧
    (∀ c, c ∈ exDB.clients ↔
      (c ∈ clientsQuery exDB ["world"] [] [] [] ∨
       c ∈ clientsQuery exDB ["dev"] [] [] [] ∨
       c ∈ clientsQuery exDB ["eval"] [] [] [])) :=
  ⟨(spec_c6_clients_filters exDB ["world", "dev"] ["onethird"] []
      []).2.2.2.2.1 (by decide),
   ((spec_c6_clients_filters exDB ["world", "dev"] ["onethird"] []
      []).2.2.2.2.2 (by decide)).1⟩

theorem clients_eval (db : Catalogue) (g sw : Sel String)
    (gl swl : List String)
    (hg : checkStr g "group" group_choices group_choices = Except.ok gl)
    (hsw : checkStr sw "subworld" db.subworld_names [] = Except.ok swl) :
    Database.clients (some db) .none g sw .none .none =
      .ok (clientsQuery db gl swl [] []) := by
  have h0 : Database.clients (some db) .none g sw .none .none =
      (checkE (checkStr g "group" group_choices group_choices) >>= fun gl' =>
        checkE (checkStr sw "subworld" db.subworld_names []) >>= fun swl' =>
          Except.ok (clientsQuery db gl' swl' [] [])) := rfl
  have hg2 : checkE (checkStr g "group" group_choices group_choices) =
      Except.ok gl := by
    rw [hg]
    rfl
  have hsw2 : checkE (checkStr sw "subworld" db.subworld_names []) =
      Except.ok swl := by
    rw [hsw]
    rfl
  rw [h0, hg2, hsw2]
  rfl

/-- C7: for a catalogue whose registered subworlds include `onethird` and
`twothirds` and whose world clients each carry one of the two subworlds,
the `onethird` and `twothirds` world client lists are disjoint and their
union is exactly the unrestricted world client list. -/
theorem spec_c7_subworld_partition :
    ∀ db : Catalogue,
      "onethird" ∈ db.subworld_names →
      "twothirds" ∈ db.subworld_names →
      (∀ c ∈ db.clients, c.sgroup = "world" →
        c.subworld = some "onethird" ∨ c.subworld = some "twothirds") →
      ∃ A B W,
        Database.clients (some db) .none (.one "world") (.one "onethird")
          .none .none = .ok A ∧
        Database.clients (some db) .none (.one "world") (.one "twothirds")
          .none .none = .ok B ∧
        Database.clients (some db) .none (.one "world") .none
          .none .none = .ok W ∧
        (∀ c, ¬(c ∈ A ∧ c ∈ B)) ∧
        (∀ c, c ∈ W ↔ (c ∈ A ∨ c ∈ B)) := by
  intro db h1 h2 hcov
  have hone : checkStr (.one "onethird") "subworld" db.subworld_names [] =
      Except.ok ["onethird"] :=
    check_one_ok _ _ _ _ _ _ (by decide) h1
  have htwo : checkStr (.one "twothirds") "subworld" db.subworld_names [] =
      Except.ok ["twothirds"] :=
    check_one_ok _ _ _ _ _ _ (by decide) h2
  have hnone : checkStr .none "subworld" db.subworld_names [] =
      Except.ok [] := rfl
  have hgw : checkStr (.one "world") "group" group_choices group_choices =
      Except.ok ["world"] := by decide
  have hA : ∀ c, c ∈ clientsQuery db ["world"] ["onethird"] [] [] ↔
      c ∈ db.clients ∧ c.sgroup = "world" ∧
        c.subworld = some "onethird" := by
    intro c
    rw [mem_clientsQuery]
    simp +decide [mem_clientsWorldBranch, mem_clientsNonWorldBranch,
      subMem_iff]
  have hB : ∀ c, c ∈ clientsQuery db ["world"] ["twothirds"] [] [] ↔
      c ∈ db.clients ∧ c.sgroup = "world" ∧
        c.subworld = some "twothirds" := by
    intro c
    rw [mem_clientsQuery]
    simp +decide [mem_clientsWorldBranch, mem_clientsNonWorldBranch,
      subMem_iff]
  have hW : ∀ c, c ∈ clientsQuery db ["world"] [] [] [] ↔
      c ∈ db.clients ∧ c.sgroup = "world" := by
    intro c
    rw [mem_clientsQuery]
    simp +decide [mem_clientsWorldBranch, mem_clientsNonWorldBranch]
  refine ⟨_, _, _,
    clients_eval db (.one "world") (.one "onethird") ["world"] ["onethird"]
      hgw hone,
    clients_eval db (.one "world") (.one "twothirds") ["world"] ["twothirds"]
      hgw htwo,
    clients_eval db (.one "world") .none ["world"] [] hgw hnone, ?_, ?_⟩
  · rintro c ⟨ha, hb⟩
    have h1 := ((hA c).mp ha).2.2
    have h2 := ((hB c).mp hb).2.2
    rw [h1] at h2
    exact absurd h2 (by decide)
  · intro c
    constructor
    · intro hw
      obtain ⟨hmem, hsg⟩ := (hW c).mp hw
      rcases hcov c hmem hsg with h | h
      · exact Or.inl ((hA c).mpr ⟨hmem, hsg, h⟩)
      · exact Or.inr ((hB c).mpr ⟨hmem, hsg, h⟩)
    · intro h
      rcases h with h | h
      · obtain ⟨hmem, hsg, _⟩ := (hA c).mp h
        exact (hW c).mpr ⟨hmem, hsg⟩
      · obtain ⟨hmem, hsg, _⟩ := (hB c).mp h
        exact (hW c).mpr ⟨hmem, hsg⟩

/-- C7, witness: the partition holds on the concrete store, whose two
world clients split into subworlds `onethird` and `twothirds`. -/
theorem spec_c7_witness :
    ∃ A B W,
      Database.clients (some exDB) .none (.one "world") (.one "onethird")
        .none .none = .ok A ∧
      Database.clients (some exDB) .none (.one "world") (.one "twothirds")
        .none .none = .ok B ∧
      Database.clients (some exDB) .none (.one "world") .none
        .none .none = .ok W ∧
      (∀ c, ¬(c ∈ A ∧ c ∈ B)) ∧
      (∀ c, c ∈ W ↔ (c ∈ A ∨ c ∈ B)) :=
  spec_c7_subworld_partition exDB (by decide) (by decide) (by decide)
